import Mathlib

/-!
Verification of `scripts/vendor_bird.py` (birdy repository).

The script downloads upstream `bird` release assets and stages per-target
binaries under `bundled/bird/`.  We shallowly embed its pure decision logic:

* asset records (`Asset`) and the selector `_pick_asset`,
* the archive path-traversal guard of `_extract_to_dir`,
* the binary locator `_find_bird_binary`,
* the orchestrating loop of `main`, with network download and on-disk
  extraction abstracted into an oracle `extract` that yields the list of
  regular files found in the scratch directory (or an exception).

Machine-level details that the claims do not touch (HTTP, tarfile/zipfile
parsing, chmod) are outside the embedding.
-/

namespace VendorBird

/-- A GitHub release asset record, keeping exactly the fields the script
reads: `name`, `size`, `browser_download_url`.  Missing JSON fields are
`none`. -/
structure Asset where
  name : Option String
  size : Option Nat
  browser_download_url : Option String
deriving DecidableEq

/-- `a.get("name") or ""` from the script. -/
def nameOr (a : Asset) : String := (a.name).getD ("")

/-- Python's `str.lower()` (ASCII), over the character list. -/
def pyLower (s : String) : String := String.mk (s.data.map Char.toLower)

/-- Python's `str.endswith(suf)`, over the character list. -/
def pyEndsWith (s suf : String) : Bool := (suf.data).isSuffixOf s.data

/-- Python's `str.startswith(pre)`, over the character list. -/
def pyStartsWith (s t : String) : Bool := (t.data).isPrefixOf s.data

/-- Python's `str.strip()` (whitespace from both ends), over the
character list. -/
def pyStrip (s : String) : String :=
  String.mk (((s.data.dropWhile Char.isWhitespace).reverse.dropWhile Char.isWhitespace).reverse)

/-- Substring test on character lists: Python's `t in n`. -/
def containsSub (hay needle : List Char) : Bool :=
  match hay with
  | [] => needle.isEmpty
  | _ :: rest => needle.isPrefixOf hay || containsSub rest needle

/-- `_token_match(name, tokens)`: lowercases `name` and asks whether any
token occurs as a substring. -/
def _token_match (name : String) (tokens : List String) : Bool :=
  tokens.any (fun t => containsSub (pyLower name).data t.data)

/-- The `os_tokens` dictionary of `_pick_asset`.  The Python dict lookup
raises `KeyError` off these three keys; the script only calls it with the
three keys below, so the `[]` default is unreachable from `main`. -/
def osTokens (goos : String) : List String :=
  if goos == "darwin" then ["darwin", "macos", "mac", "osx"]
  else if goos == "linux" then ["linux"]
  else if goos == "windows" then ["windows", "win"]
  else []

/-- The `arch_tokens` dictionary of `_pick_asset`. -/
def archTokens (goarch : String) : List String :=
  if goarch == "amd64" then ["amd64", "x86_64", "x64"]
  else if goarch == "arm64" then ["arm64", "aarch64"]
  else []

/-- `lower.endswith((".sha256", ".sha256sum", ".sig", ".asc", ".txt", ".json"))`:
the non-binary suffixes skipped by `_pick_asset`. -/
def nonBinarySuffix (lower : String) : Bool :=
  [".sha256", ".sha256sum", ".sig", ".asc", ".txt", ".json"].any
    (fun s => pyEndsWith lower s)

/-- The `matches` list built by the loop in `_pick_asset`. -/
def matchesOf (assets : List Asset) (goos goarch : String) : List Asset :=
  assets.filter (fun a =>
    let name := nameOr a
    let lower := pyLower name
    !(nonBinarySuffix lower) &&
      (_token_match name (osTokens goos) && _token_match name (archTokens goarch)))

/-- The `score` key of `_pick_asset`: `(fmt, size)` with `fmt` 0 for
`.tar.gz`/`.tgz`, 1 for `.zip`, 2 otherwise, and `size` from
`int(a.get("size") or 0)`. -/
def score (a : Asset) : Nat × Nat :=
  let name := pyLower (nameOr a)
  let fmt : Nat :=
    if pyEndsWith name (".tar.gz") || pyEndsWith name (".tgz") then 0
    else if pyEndsWith name (".zip") then 1
    else 2
  (fmt, (a.size).getD 0)

/-- Lexicographic `≤` on pairs: Python's tuple comparison used by `sorted`. -/
def tupleLe (x y : Nat × Nat) : Bool :=
  decide (x.1 < y.1 ∨ (x.1 = y.1 ∧ x.2 ≤ y.2))

/-- The ordering on assets induced by `score`. -/
def scoreLe (a b : Asset) : Bool := tupleLe (score a) (score b)

/-- `_pick_asset(assets, goos, goarch)`: filter, then
`sorted(matches, key=score)[0]` (Python's `sorted` is stable; `mergeSort`
is its stable counterpart). -/
def _pick_asset (assets : List Asset) (goos goarch : String) : Option Asset :=
  let ms := matchesOf assets goos goarch
  if ms.isEmpty then none
  else (ms.mergeSort scoreLe).head?

/-- A regular file in the scratch directory, as seen by
`_find_bird_binary`: its basename and whether the owner-execute bit
(`stat.S_IXUSR`) is set.  The list order is the `rglob` traversal order. -/
structure FileEntry where
  name : String
  execOwner : Bool
deriving DecidableEq

/-- `_find_bird_binary(root, want_windows)` over the list of regular files
of the tree: first a file named exactly `bird.exe`/`bird`; then the single
file if there is exactly one; then (non-windows only) the first
executable file whose lowercased name starts with `bird`. -/
def _find_bird_binary (files : List FileEntry) (want_windows : Bool) : Option FileEntry :=
  let preferred := if want_windows then ["bird.exe"] else ["bird"]
  match files.find? (fun p => preferred.contains p.name) with
  | some p => some p
  | none =>
    if files.length == 1 then files.head?
    else if !want_windows then
      files.find? (fun p => p.execOwner && pyStartsWith (pyLower p.name) ("bird"))
    else none

/-!  The path-traversal guard of `_extract_to_dir`.

An absolute path is a list of segments (so `/tmp/s` is `["tmp", "s"]`);
a member name is its list of `/\x2dseparated` segments.  `(out_dir / m).resolve()`
resolves `..` and `.` against `out_dir`; the scratch directory is freshly
created and empty when the guard runs (the check precedes `extractall`),
so no symlink affects resolution. -/

/-- `(out_dir / name).resolve()`: fold the member's segments over the
scratch directory, `..` dropping the last segment (`Path("/").parent` is
`/` again, matching `dropLast` on `[]`) and `.` a no-op. -/
def resolveSegs (base : List String) (rel : List String) : List String :=
  rel.foldl (fun acc seg =>
    if seg == ".." then acc.dropLast
    else if seg == "." then acc
    else acc ++ [seg]) base

/-- The character string of a non-root absolute path: `/seg1/seg2/...`. -/
def segsChars : List String → List Char
  | [] => []
  | s :: rest => '/' :: (s.data ++ segsChars rest)

/-- `str(p)` for an absolute path given by its segments (root is `/`). -/
def pathChars (segs : List String) : List Char :=
  if segs.isEmpty then ['/'] else segsChars segs

/-- The guard test of `_extract_to_dir`:
`str(p).startswith(str(out_dir.resolve()))` for `p = (out_dir / m).resolve()`. -/
def memberSafe (out_dir : List String) (m : List String) : Bool :=
  (pathChars out_dir).isPrefixOf (pathChars (resolveSegs out_dir m))

/-- True descendant test: the resolved path lies in the scratch directory
(segment-wise), i.e. the scratch directory's segments are a prefix of the
resolved segments. -/
def isDescendant (out_dir resolved : List String) : Bool :=
  out_dir.isPrefixOf resolved

/-- The guard loop of `_extract_to_dir` over all archive members: the
first member failing the `startswith` test, i.e. `some m` exactly when the
Python code raises `RuntimeError("unsafe ... member path: m")` (before any
member is written), `none` when extraction proceeds. -/
def firstUnsafeMember (out_dir : List String) (members : List (List String)) :
    Option (List String) :=
  members.find? (fun m => !(memberSafe out_dir m))

/-- `_extract_to_dir(payload, asset_name, out_dir)`, restricted to the
guard behaviour the claims are about: for `.tar.gz`/`.tgz`/`.zip` payloads
the result is the first rejected member (if any); raw payloads are written
as `out_dir/bird` with no guard. -/
def _extract_to_dir (asset_name : String) (members : List (List String))
    (out_dir : List String) : Option (List String) :=
  let an := pyLower asset_name
  if pyEndsWith an (".tar.gz") || pyEndsWith an (".tgz") then firstUnsafeMember out_dir members
  else if pyEndsWith an (".zip") then firstUnsafeMember out_dir members
  else none

/-! The orchestrator `main`. -/

/-- The observable outcome of a run of `main`: the returned exit code, the
staged destination paths (in staging order) and the lines printed to
stderr (an unhandled exception is recorded as a final
`vendor_bird: unhandled exception` line, standing for the interpreter
traceback, which also terminates the process with exit code 1). -/
structure RunResult where
  exitCode : Nat
  staged : List String
  errLines : List String
deriving DecidableEq

/-- The `targets` list of `main`. -/
def targetsList (require_windows : Bool) : List (String × String × Bool) :=
  [("darwin", "amd64", true), ("darwin", "arm64", true),
   ("linux", "amd64", true), ("linux", "arm64", true),
   ("windows", "amd64", require_windows), ("windows", "arm64", require_windows)]

/-- `out_root / f"bird_goos_goarch..."` with `.exe` appended exactly for
`want_windows = (goos == "windows")`. -/
def dstName (goos goarch : String) : String :=
  "bundled/bird/bird_" ++ goos ++ "_" ++ goarch ++
    (if goos == "windows" then ".exe" else "")

/-- Diagnostic for a selector miss. -/
def noMatchMsg (goos goarch : String) : String :=
  "vendor_bird: no matching asset for " ++ goos ++ "/" ++ goarch

/-- Diagnostic for an asset record without URL or name. -/
def invalidMsg (goos goarch : String) : String :=
  "vendor_bird: invalid asset for " ++ goos ++ "/" ++ goarch

/-- Progress line printed before downloading. -/
def downloadingMsg (name goos goarch : String) : String :=
  "vendor_bird: downloading " ++ name ++ " for " ++ goos ++ "/" ++ goarch

/-- Diagnostic for a locator miss. -/
def locateMsg (name : String) : String :=
  "vendor_bird: could not locate bird binary after extracting " ++ name

/-- The per-target loop of `main`.  `extract` abstracts
`_download` + `_extract_to_dir`: the regular files found in the scratch
directory, or `Except.error ()` when one of them raises (transport error
or unsafe archive member), which crashes the run.  `staged`/`err`
accumulate outputs; early `return 1` short-circuits. -/
def processTargets (extract : Asset → Except Unit (List FileEntry)) (assets : List Asset) :
    List (String × String × Bool) → List String → List String → RunResult
  | [], staged, err => ⟨0, staged, err⟩
  | (goos, goarch, required) :: rest, staged, err =>
    match _pick_asset assets goos goarch with
    | none =>
      if required then ⟨1, staged, err ++ [noMatchMsg goos goarch]⟩
      else processTargets extract assets rest staged
        (err ++ [noMatchMsg goos goarch ++ " (skipping)"])
    | some asset =>
      if ((asset.browser_download_url).getD ("") == "" || nameOr asset == "") then
        ⟨1, staged, err ++ [invalidMsg goos goarch]⟩
      else
        let err2 := err ++ [downloadingMsg (nameOr asset) goos goarch]
        match extract asset with
        | Except.error _ => ⟨1, staged, err2 ++ ["vendor_bird: unhandled exception"]⟩
        | Except.ok tree =>
          match _find_bird_binary tree (goos == "windows") with
          | none =>
            if required then ⟨1, staged, err2 ++ [locateMsg (nameOr asset)]⟩
            else processTargets extract assets rest staged
              (err2 ++ [locateMsg (nameOr asset) ++ " (skipping)"])
          | some _ => processTargets extract assets rest (staged ++ [dstName goos goarch]) err2

/-- `main()`: `bundle_windows_env` is `os.environ.get("BIRDY_BUNDLE_WINDOWS")`
(`none` = unset; the script defaults it to `"1"`, strips it and compares
with `"1"`), `assets` is `rel.get("assets") or []`. -/
def mainRun (bundle_windows_env : Option String) (assets : List Asset)
    (extract : Asset → Except Unit (List FileEntry)) : RunResult :=
  let require_windows := pyStrip (bundle_windows_env.getD ("1")) == "1"
  if assets.isEmpty then ⟨1, [], ["vendor_bird: no assets found in upstream release"]⟩
  else processTargets extract assets (targetsList require_windows) [] []

/-! Properties of the selector's ordering. -/

theorem scoreLe_total : ∀ (a b : Asset), scoreLe a b || scoreLe b a := by
  intro a b
  simp only [scoreLe, tupleLe, Bool.or_eq_true, decide_eq_true_eq]
  omega

theorem scoreLe_trans : ∀ (a b c : Asset), scoreLe a b → scoreLe b c → scoreLe a c := by
  intro a b c
  simp only [scoreLe, tupleLe, decide_eq_true_eq]
  omega

theorem scoreLe_refl (a : Asset) : scoreLe a a := by
  simpa using scoreLe_total a a

/-- The head of the stable sort is a minimum of the list. -/
theorem mergeSort_head_min (l : List Asset) (x : Asset)
    (h : (l.mergeSort scoreLe).head? = some x) :
    x ∈ l ∧ ∀ y ∈ l, scoreLe x y := by
  have hs := List.sorted_mergeSort scoreLe_trans scoreLe_total l
  cases hm : l.mergeSort scoreLe with
  | nil => rw [hm] at h; exact absurd h (by simp)
  | cons z rest =>
    rw [hm] at h
    have hx : z = x := by simpa using h
    subst hx
    rw [hm] at hs
    constructor
    · have : z ∈ l.mergeSort scoreLe := by rw [hm]; exact List.mem_cons_self z rest
      exact List.mem_mergeSort.mp this
    · intro y hy
      have hmem : y ∈ z :: rest := by
        rw [← hm]; exact List.mem_mergeSort.mpr hy
      rcases List.mem_cons.mp hmem with h1 | h1
      · rw [h1]; exact scoreLe_refl z
      · exact List.rel_of_pairwise_cons hs h1

/-- The head of the stable sort occurs in the input before every element
that does not compare `≤` to it (stability). -/
theorem mergeSort_head_first (l : List Asset) : ∀ (x : Asset),
    (l.mergeSort scoreLe).head? = some x →
    ∃ l1 l2, l = l1 ++ x :: l2 ∧ ∀ y ∈ l1, scoreLe y x = false := by
  induction l with
  | nil => intro x h; simp [List.mergeSort_nil] at h
  | cons a t ih =>
    intro x h
    obtain ⟨l₁, l₂, h₁, h₂, h₃⟩ := List.mergeSort_cons scoreLe_trans scoreLe_total a t
    cases l₁ with
    | nil =>
      rw [h₁] at h
      simp only [List.nil_append, List.head?_cons, Option.some.injEq] at h
      subst h
      exact ⟨[], t, rfl, by simp⟩
    | cons c t₁ =>
      rw [h₁] at h
      simp only [List.cons_append, List.head?_cons, Option.some.injEq] at h
      subst h
      have h' : (t.mergeSort scoreLe).head? = some c := by rw [h₂]; rfl
      obtain ⟨m1, m2, e, hm⟩ := ih c h'
      refine ⟨a :: m1, m2, by rw [e, List.cons_append], ?_⟩
      intro y hy
      rcases List.mem_cons.mp hy with h1 | h1
      · subst h1
        have hb := h₃ c (List.mem_cons_self c t₁)
        simpa using hb
      · exact hm y h1

/-- The first minimal element of a list of assets, left to right: this is
what `sorted(ms, key=score)[0]` denotes for a stable sort. -/
def firstMin : List Asset → Option Asset
  | [] => none
  | a :: rest =>
    match firstMin rest with
    | none => some a
    | some b => if scoreLe b a && !(scoreLe a b) then some b else some a

theorem firstMin_eq_none : ∀ (l : List Asset), firstMin l = none ↔ l = [] := by
  intro l
  cases l with
  | nil => simp [firstMin]
  | cons a rest =>
    simp only [firstMin]
    cases firstMin rest with
    | none => simp
    | some b =>
      cases h : (scoreLe b a && !(scoreLe a b)) <;> simp [h]

/-- `firstMin` returns a minimum that occurs before every element not
comparing `≤` to it. -/
theorem firstMin_spec : ∀ (l : List Asset) (x : Asset), firstMin l = some x →
    (x ∈ l ∧ ∀ y ∈ l, scoreLe x y) ∧
      ∃ l1 l2, l = l1 ++ x :: l2 ∧ ∀ y ∈ l1, scoreLe y x = false := by
  intro l
  induction l with
  | nil => intro x h; simp [firstMin] at h
  | cons a rest ih =>
    intro x h
    simp only [firstMin] at h
    cases hr : firstMin rest with
    | none =>
      rw [hr] at h
      have hx : a = x := by simpa using h
      subst hx
      have hrest : rest = [] := (firstMin_eq_none rest).mp hr
      subst hrest
      refine ⟨⟨List.mem_cons_self a [], ?_⟩, [], [], rfl, by simp⟩
      intro y hy
      have hya : y = a := by simpa using hy
      rw [hya]
      exact scoreLe_refl a
    | some b =>
      rw [hr] at h
      dsimp only at h
      obtain ⟨⟨hbmem, hbmin⟩, m1, m2, e, hm⟩ := ih b hr
      by_cases hc : (scoreLe b a && !(scoreLe a b)) = true
      · rw [if_pos hc] at h
        have hx : b = x := by simpa using h
        subst hx
        obtain ⟨hba, hab'⟩ : scoreLe b a = true ∧ (!(scoreLe a b)) = true := by
          simpa using hc
        have hab : scoreLe a b = false := by simpa using hab'
        refine ⟨⟨List.mem_cons_of_mem a hbmem, ?_⟩, a :: m1, m2,
          by rw [e, List.cons_append], ?_⟩
        · intro y hy
          rcases List.mem_cons.mp hy with h1 | h1
          · rw [h1]; exact hba
          · exact hbmin y h1
        · intro y hy
          rcases List.mem_cons.mp hy with h1 | h1
          · rw [h1]; exact hab
          · exact hm y h1
      · rw [if_neg hc] at h
        have hx : a = x := by simpa using h
        subst hx
        have hab : scoreLe a b = true := by
          cases hab' : scoreLe a b with
          | true => rfl
          | false =>
            have htot := scoreLe_total a b
            rw [hab', Bool.false_or] at htot
            exact absurd (by rw [htot, hab']; rfl) hc
        refine ⟨⟨List.mem_cons_self a rest, ?_⟩, [], rest, rfl, by simp⟩
        intro y hy
        rcases List.mem_cons.mp hy with h1 | h1
        · rw [h1]; exact scoreLe_refl a
        · exact scoreLe_trans a b y hab (hbmin y h1)

/-- There is at most one "first minimal" element. -/
theorem firstPos_unique (l : List Asset) (x y : Asset)
    (hx1 : ∀ z ∈ l, scoreLe x z)
    (hx2 : ∃ l1 l2, l = l1 ++ x :: l2 ∧ ∀ z ∈ l1, scoreLe z x = false)
    (hy1 : ∀ z ∈ l, scoreLe y z)
    (hy2 : ∃ m1 m2, l = m1 ++ y :: m2 ∧ ∀ z ∈ m1, scoreLe z y = false) :
    x = y := by
  obtain ⟨l1, l2, e1, h1⟩ := hx2
  obtain ⟨m1, m2, e2, h2⟩ := hy2
  have e : l1 ++ x :: l2 = m1 ++ y :: m2 := by rw [← e1, ← e2]
  rcases List.append_eq_append_iff.mp e with ⟨a', ha1, ha2⟩ | ⟨c', hc1, hc2⟩
  · cases a' with
    | nil =>
      have : x :: l2 = y :: m2 := by simpa using ha2
      exact (List.cons.injEq x l2 y m2 ▸ this).1
    | cons u t =>
      rw [List.cons_append] at ha2
      injection ha2 with hxu hrest
      subst hxu
      have hmem : x ∈ m1 := by
        rw [ha1]; exact List.mem_append_right l1 (List.mem_cons_self x t)
      have hfalse : scoreLe x y = false := h2 x hmem
      have htrue : scoreLe x y = true :=
        hx1 y (by rw [e2]; exact List.mem_append_right m1 (List.mem_cons_self y m2))
      rw [hfalse] at htrue
      exact absurd htrue (by simp)
  · cases c' with
    | nil =>
      have : y :: m2 = x :: l2 := by simpa using hc2
      exact ((List.cons.injEq y m2 x l2 ▸ this).1).symm
    | cons u t =>
      rw [List.cons_append] at hc2
      injection hc2 with hyu hrest
      subst hyu
      have hmem : y ∈ l1 := by
        rw [hc1]; exact List.mem_append_right m1 (List.mem_cons_self y t)
      have hfalse : scoreLe y x = false := h1 y hmem
      have htrue : scoreLe y x = true :=
        hy1 x (by rw [e1]; exact List.mem_append_right l1 (List.mem_cons_self x l2))
      rw [hfalse] at htrue
      exact absurd htrue (by simp)

/-- Bridge: `_pick_asset` computes the first minimal match.  This is both
the key correctness statement about `sorted(ms, key=score)[0]` and the
device that lets closed runs be evaluated by `decide`. -/
theorem pick_asset_eq_firstMin (assets : List Asset) (goos goarch : String) :
    _pick_asset assets goos goarch = firstMin (matchesOf assets goos goarch) := by
  unfold _pick_asset
  cases hm : matchesOf assets goos goarch with
  | nil => simp [firstMin]
  | cons a rest =>
    simp only [List.isEmpty_cons, Bool.false_eq_true, if_false]
    cases hh : ((a :: rest).mergeSort scoreLe).head? with
    | none =>
      exfalso
      have : (a :: rest).mergeSort scoreLe = [] := by
        cases hs : (a :: rest).mergeSort scoreLe with
        | nil => rfl
        | cons z zs => rw [hs] at hh; exact absurd hh (by simp)
      have hlen : ((a :: rest).mergeSort scoreLe).length = (a :: rest).length :=
        List.length_mergeSort (a :: rest)
      rw [this] at hlen
      exact absurd hlen.symm (by simp)
    | some x =>
      cases hf : firstMin (a :: rest) with
      | none =>
        exact absurd ((firstMin_eq_none (a :: rest)).mp hf) (by simp)
      | some y =>
        have hxs := mergeSort_head_min (a :: rest) x hh
        have hxf := mergeSort_head_first (a :: rest) x hh
        have hys := firstMin_spec (a :: rest) y hf
        rw [firstPos_unique (a :: rest) x y hxs.2 hxf hys.1.2 hys.2]

/-- Executable form of `_pick_asset` (kernel-reducible, unlike
`mergeSort`); equal to it by `pick_asset_eq_firstMin`. -/
def _pick_assetImpl (assets : List Asset) (goos goarch : String) : Option Asset :=
  firstMin (matchesOf assets goos goarch)

/-- `processTargets` with the executable selector. -/
def processTargetsImpl (extract : Asset → Except Unit (List FileEntry)) (assets : List Asset) :
    List (String × String × Bool) → List String → List String → RunResult
  | [], staged, err => ⟨0, staged, err⟩
  | (goos, goarch, required) :: rest, staged, err =>
    match _pick_assetImpl assets goos goarch with
    | none =>
      if required then ⟨1, staged, err ++ [noMatchMsg goos goarch]⟩
      else processTargetsImpl extract assets rest staged
        (err ++ [noMatchMsg goos goarch ++ " (skipping)"])
    | some asset =>
      if ((asset.browser_download_url).getD ("") == "" || nameOr asset == "") then
        ⟨1, staged, err ++ [invalidMsg goos goarch]⟩
      else
        let err2 := err ++ [downloadingMsg (nameOr asset) goos goarch]
        match extract asset with
        | Except.error _ => ⟨1, staged, err2 ++ ["vendor_bird: unhandled exception"]⟩
        | Except.ok tree =>
          match _find_bird_binary tree (goos == "windows") with
          | none =>
            if required then ⟨1, staged, err2 ++ [locateMsg (nameOr asset)]⟩
            else processTargetsImpl extract assets rest staged
              (err2 ++ [locateMsg (nameOr asset) ++ " (skipping)"])
          | some _ =>
            processTargetsImpl extract assets rest (staged ++ [dstName goos goarch]) err2

/-- `mainRun` with the executable selector. -/
def mainRunImpl (bundle_windows_env : Option String) (assets : List Asset)
    (extract : Asset → Except Unit (List FileEntry)) : RunResult :=
  let require_windows := pyStrip (bundle_windows_env.getD ("1")) == "1"
  if assets.isEmpty then ⟨1, [], ["vendor_bird: no assets found in upstream release"]⟩
  else processTargetsImpl extract assets (targetsList require_windows) [] []

theorem processTargets_eq (extract : Asset → Except Unit (List FileEntry))
    (assets : List Asset) : ∀ (ts : List (String × String × Bool)) (staged err : List String),
    processTargets extract assets ts staged err = processTargetsImpl extract assets ts staged err := by
  intro ts
  induction ts with
  | nil => intro staged err; rfl
  | cons t rest ih =>
    intro staged err
    obtain ⟨goos, goarch, required⟩ := t
    simp only [processTargets, processTargetsImpl, pick_asset_eq_firstMin, _pick_assetImpl]
    cases firstMin (matchesOf assets goos goarch) with
    | none =>
      cases required <;> simp [ih]
    | some asset =>
      cases hcond : ((asset.browser_download_url).getD ("") == "" || nameOr asset == "") with
      | true => simp [hcond]
      | false =>
        simp only [hcond, Bool.false_eq_true, if_false]
        cases extract asset with
        | error e => rfl
        | ok tree =>
          cases _find_bird_binary tree (goos == "windows") with
          | none => cases required <;> simp [ih]
          | some p => simp [ih]

theorem mainRun_eq (bundle_windows_env : Option String) (assets : List Asset)
    (extract : Asset → Except Unit (List FileEntry)) :
    mainRun bundle_windows_env assets extract = mainRunImpl bundle_windows_env assets extract := by
  unfold mainRun mainRunImpl
  cases assets.isEmpty with
  | true => simp
  | false => simp [processTargets_eq]

/-! Invariants of the `main` loop. -/

theorem processTargets_exit01 (extract : Asset → Except Unit (List FileEntry))
    (assets : List Asset) : ∀ (ts : List (String × String × Bool)) (staged err : List String),
    (processTargets extract assets ts staged err).exitCode = 0 ∨
      (processTargets extract assets ts staged err).exitCode = 1 := by
  intro ts
  induction ts with
  | nil => intro staged err; exact Or.inl rfl
  | cons t rest ih =>
    intro staged err
    obtain ⟨goos, goarch, required⟩ := t
    simp only [processTargets]
    cases _pick_asset assets goos goarch with
    | none =>
      cases required with
      | true => exact Or.inr rfl
      | false => exact ih staged _
    | some asset =>
      dsimp only
      cases hcond : ((asset.browser_download_url).getD ("") == "" || nameOr asset == "") with
      | true => exact Or.inr rfl
      | false =>
        cases extract asset with
        | error e => exact Or.inr rfl
        | ok tree =>
          dsimp only
          cases _find_bird_binary tree (goos == "windows") with
          | none =>
            cases required with
            | true => exact Or.inr rfl
            | false => exact ih staged _
          | some p => exact ih _ _

theorem processTargets_staged_extends (extract : Asset → Except Unit (List FileEntry))
    (assets : List Asset) : ∀ (ts : List (String × String × Bool)) (staged err : List String),
    ∃ t, (processTargets extract assets ts staged err).staged = staged ++ t := by
  intro ts
  induction ts with
  | nil => intro staged err; exact ⟨[], by rw [List.append_nil]; rfl⟩
  | cons t rest ih =>
    intro staged err
    obtain ⟨goos, goarch, required⟩ := t
    simp only [processTargets]
    cases _pick_asset assets goos goarch with
    | none =>
      cases required with
      | true => exact ⟨[], by simp⟩
      | false => exact ih staged _
    | some asset =>
      dsimp only
      cases hcond : ((asset.browser_download_url).getD ("") == "" || nameOr asset == "") with
      | true => exact ⟨[], by simp⟩
      | false =>
        cases extract asset with
        | error e => exact ⟨[], by simp⟩
        | ok tree =>
          dsimp only
          cases _find_bird_binary tree (goos == "windows") with
          | none =>
            cases required with
            | true => exact ⟨[], by simp⟩
            | false => exact ih staged _
          | some p =>
            obtain ⟨u, hu⟩ := ih (staged ++ [dstName goos goarch])
              (err ++ [downloadingMsg (nameOr asset) goos goarch])
            exact ⟨[dstName goos goarch] ++ u, by
              show (processTargets extract assets rest (staged ++ [dstName goos goarch])
                  (err ++ [downloadingMsg (nameOr asset) goos goarch])).staged =
                staged ++ ([dstName goos goarch] ++ u)
              rw [hu, List.append_assoc]⟩

theorem processTargets_staged_mem (extract : Asset → Except Unit (List FileEntry))
    (assets : List Asset) : ∀ (ts : List (String × String × Bool)) (staged err : List String)
    (goos goarch : String),
    (goos, goarch, true) ∈ ts →
    (processTargets extract assets ts staged err).exitCode = 0 →
    dstName goos goarch ∈ (processTargets extract assets ts staged err).staged := by
  intro ts
  induction ts with
  | nil => intro staged err goos goarch hmem _; exact absurd hmem (List.not_mem_nil _)
  | cons t rest ih =>
    intro staged err goos goarch hmem hexit
    obtain ⟨g, a, req⟩ := t
    rcases List.mem_cons.mp hmem with hhead | htail
    · obtain ⟨hg, ha, hr⟩ : goos = g ∧ goarch = a ∧ true = req := by simpa using hhead
      subst hg; subst ha; subst hr
      revert hexit
      simp only [processTargets]
      cases hp : _pick_asset assets goos goarch with
      | none => intro hexit; simp at hexit
      | some asset =>
        dsimp only
        cases hcond : ((asset.browser_download_url).getD ("") == "" || nameOr asset == "") with
        | true => intro hexit; simp at hexit
        | false =>
          cases hext : extract asset with
          | error e => intro hexit; simp at hexit
          | ok tree =>
            dsimp only
            cases hfind : _find_bird_binary tree (goos == "windows") with
            | none => intro hexit; simp at hexit
            | some p =>
              intro _
              obtain ⟨u, hu⟩ := processTargets_staged_extends extract assets rest
                (staged ++ [dstName goos goarch])
                (err ++ [downloadingMsg (nameOr asset) goos goarch])
              show dstName goos goarch ∈ (processTargets extract assets rest
                (staged ++ [dstName goos goarch])
                (err ++ [downloadingMsg (nameOr asset) goos goarch])).staged
              rw [hu]
              exact List.mem_append_left u
                (List.mem_append_right staged (List.mem_cons_self _ _))
    · revert hexit
      simp only [processTargets]
      cases hp : _pick_asset assets g a with
      | none =>
        cases req with
        | true => intro hexit; simp at hexit
        | false => intro hexit; exact ih staged _ goos goarch htail hexit
      | some asset =>
        dsimp only
        cases hcond : ((asset.browser_download_url).getD ("") == "" || nameOr asset == "") with
        | true => intro hexit; simp at hexit
        | false =>
          cases hext : extract asset with
          | error e => intro hexit; simp at hexit
          | ok tree =>
            dsimp only
            cases hfind : _find_bird_binary tree (g == "windows") with
            | none =>
              cases req with
              | true => intro hexit; simp at hexit
              | false => intro hexit; exact ih staged _ goos goarch htail hexit
            | some p => intro hexit; exact ih _ _ goos goarch htail hexit

theorem processTargets_staged_count (extract : Asset → Except Unit (List FileEntry))
    (assets : List Asset) : ∀ (ts : List (String × String × Bool)) (staged err : List String)
    (d : String),
    ((processTargets extract assets ts staged err).staged.count d) ≤
      staged.count d + ((ts.map (fun t => dstName t.1 t.2.1)).count d) := by
  intro ts
  induction ts with
  | nil => intro staged err d; simp [processTargets]
  | cons t rest ih =>
    intro staged err d
    obtain ⟨g, a, req⟩ := t
    simp only [processTargets, List.map_cons, List.count_cons]
    cases hp : _pick_asset assets g a with
    | none =>
      cases req with
      | true => exact Nat.le_add_right _ _
      | false =>
        refine Nat.le_trans (ih staged _ d) ?_
        omega
    | some asset =>
      dsimp only
      cases hcond : ((asset.browser_download_url).getD ("") == "" || nameOr asset == "") with
      | true => exact Nat.le_add_right _ _
      | false =>
        cases hext : extract asset with
        | error e => exact Nat.le_add_right _ _
        | ok tree =>
          dsimp only
          cases hfind : _find_bird_binary tree (g == "windows") with
          | none =>
            cases req with
            | true => exact Nat.le_add_right _ _
            | false =>
              refine Nat.le_trans (ih staged _ d) ?_
              omega
          | some p =>
            refine Nat.le_trans (ih (staged ++ [dstName g a]) _ d) ?_
            rw [List.count_append]
            simp only [List.count_cons, List.count_nil]
            omega

theorem processTargets_err_growth (extract : Asset → Except Unit (List FileEntry))
    (assets : List Asset) : ∀ (ts : List (String × String × Bool)) (staged err : List String),
    (processTargets extract assets ts staged err).exitCode ≠ 0 →
    err.length < (processTargets extract assets ts staged err).errLines.length := by
  intro ts
  induction ts with
  | nil => intro staged err h; exact absurd rfl h
  | cons t rest ih =>
    intro staged err
    obtain ⟨g, a, req⟩ := t
    simp only [processTargets]
    cases hp : _pick_asset assets g a with
    | none =>
      cases req with
      | true =>
        intro _
        show err.length < (err ++ [noMatchMsg g a]).length
        simp only [List.length_append, List.length_cons, List.length_nil]
        omega
      | false =>
        intro h
        refine Nat.lt_trans ?_ (ih staged (err ++ [noMatchMsg g a ++ " (skipping)"]) h)
        simp only [List.length_append, List.length_cons, List.length_nil]
        omega
    | some asset =>
      dsimp only
      cases hcond : ((asset.browser_download_url).getD ("") == "" || nameOr asset == "") with
      | true =>
        intro _
        show err.length < (err ++ [invalidMsg g a]).length
        simp only [List.length_append, List.length_cons, List.length_nil]
        omega
      | false =>
        cases hext : extract asset with
        | error e =>
          intro _
          show err.length <
            (err ++ [downloadingMsg (nameOr asset) g a] ++ ["vendor_bird: unhandled exception"]).length
          simp only [List.length_append, List.length_cons, List.length_nil]
          omega
        | ok tree =>
          dsimp only
          cases hfind : _find_bird_binary tree (g == "windows") with
          | none =>
            cases req with
            | true =>
              intro _
              show err.length <
                (err ++ [downloadingMsg (nameOr asset) g a] ++ [locateMsg (nameOr asset)]).length
              simp only [List.length_append, List.length_cons, List.length_nil]
              omega
            | false =>
              intro h
              refine Nat.lt_trans ?_ (ih staged
                (err ++ [downloadingMsg (nameOr asset) g a] ++
                  [locateMsg (nameOr asset) ++ " (skipping)"]) h)
              simp only [List.length_append, List.length_cons, List.length_nil]
              omega
          | some p =>
            intro h
            refine Nat.lt_of_lt_of_le ?_ (Nat.le_of_lt (ih (staged ++ [dstName g a])
              (err ++ [downloadingMsg (nameOr asset) g a]) h))
            simp only [List.length_append, List.length_cons, List.length_nil]
            omega

/-- Each target's destination occurs exactly once among the six targets'
destinations. -/
theorem targets_dst_count (b : Bool) (goos goarch : String) (required : Bool)
    (hmem : (goos, goarch, required) ∈ targetsList b) :
    ((targetsList b).map (fun t => dstName t.1 t.2.1)).count (dstName goos goarch) = 1 := by
  cases b <;>
    (simp only [targetsList, List.mem_cons, List.not_mem_nil, or_false] at hmem ;
      rcases hmem with h | h | h | h | h | h <;>
        (rw [Prod.mk.injEq, Prod.mk.injEq] at h ;
          obtain ⟨h1, h2, h3⟩ := h ; subst h1 ; subst h2 ; decide))

/-! Facts about the path guard. -/

theorem isPrefixOf_exists {α : Type} [BEq α] [LawfulBEq α] :
    ∀ (a b : List α), a.isPrefixOf b = true → ∃ t, b = a ++ t := by
  intro a
  induction a with
  | nil => intro b _; exact ⟨b, rfl⟩
  | cons x xs ih =>
    intro b h
    cases b with
    | nil => simp [List.isPrefixOf] at h
    | cons y ys =>
      simp only [List.isPrefixOf, Bool.and_eq_true, beq_iff_eq] at h
      obtain ⟨hxy, hrest⟩ := h
      obtain ⟨t, ht⟩ := ih ys hrest
      exact ⟨t, by rw [hxy, ht, List.cons_append]⟩

theorem isPrefixOf_self_append {α : Type} [BEq α] [LawfulBEq α] :
    ∀ (l t : List α), l.isPrefixOf (l ++ t) = true := by
  intro l t
  induction l with
  | nil => simp [List.isPrefixOf]
  | cons x xs ih => simp [List.isPrefixOf, ih]

theorem segsChars_append : ∀ (a b : List String),
    segsChars (a ++ b) = segsChars a ++ segsChars b := by
  intro a b
  induction a with
  | nil => rfl
  | cons s rest ih => simp [segsChars, ih]

/-- A true descendant of the scratch directory always passes the
`startswith` guard. -/
theorem descendant_safe (out_dir m : List String)
    (h : isDescendant out_dir (resolveSegs out_dir m) = true) :
    memberSafe out_dir m = true := by
  obtain ⟨t, ht⟩ := isPrefixOf_exists out_dir (resolveSegs out_dir m) h
  unfold memberSafe
  rw [ht]
  cases out_dir with
  | nil =>
    cases t with
    | nil => simp [pathChars, List.isPrefixOf]
    | cons s rest => simp [pathChars, segsChars, List.isPrefixOf]
  | cons s rest =>
    show (pathChars (s :: rest)).isPrefixOf (pathChars ((s :: rest) ++ t)) = true
    have h1 : pathChars (s :: rest) = segsChars (s :: rest) := rfl
    have h2 : pathChars ((s :: rest) ++ t) = segsChars ((s :: rest) ++ t) := rfl
    rw [h1, h2, segsChars_append]
    exact isPrefixOf_self_append _ _

/-! Demonstration data shared by concrete runs. -/

/-- A macos/amd64 release asset. -/
def demoMacAmd : Asset := ⟨some "bird_macos_amd64.tar.gz", some 10, some "u1"⟩

/-- A macos/arm64 release asset. -/
def demoMacArm : Asset := ⟨some "bird_macos_arm64.tar.gz", some 11, some "u2"⟩

/-- A linux/amd64 release asset. -/
def demoLinuxAmd : Asset := ⟨some "bird_linux_amd64.tar.gz", some 12, some "u3"⟩

/-- A linux/arm64 release asset. -/
def demoLinuxArm : Asset := ⟨some "bird_linux_arm64.tar.gz", some 13, some "u4"⟩

/-- A release with one asset per non-windows target and none whose name
contains `win`. -/
def demoAssets : List Asset := [demoMacAmd, demoMacArm, demoLinuxAmd, demoLinuxArm]

/-- Extraction oracle whose scratch tree holds one executable `bird`. -/
def demoExtract : Asset → Except Unit (List FileEntry) :=
  fun _ => Except.ok [⟨"bird", true⟩]

/-! Claims. -/

/-- Claim C2, counterexample: in scratch directory `/tmp/s`, the tar
member `../sx/evil` resolves to `/tmp/sx/evil`, which is not a descendant
of `/tmp/s`, yet the `startswith` guard accepts it (string-prefix
collision with the sibling `/tmp/sx`), so extraction does not raise. -/
theorem c2_guard_counterexample :
    _extract_to_dir ("payload.tar.gz") [["..", "sx", "evil"]] ["tmp", "s"] = none
    ∧ isDescendant ["tmp", "s"] (resolveSegs ["tmp", "s"] ["..", "sx", "evil"]) = false := by
  constructor
  · decide
  · decide

/-- Claim C2, amended: for `.tar.gz`/`.tgz`/`.zip` payloads the guard
raises exactly when some member's resolved path string does not start
with the scratch directory's path string (checked before any member is
written); every member resolving to a true descendant (or to the scratch
directory itself) is accepted.  Unlike the original claim, a
non-descendant whose path string merely extends the scratch directory's
string is also accepted. -/
theorem c2_guard_amended (asset_name : String) (members : List (List String))
    (out_dir : List String)
    (harchive : (pyEndsWith (pyLower asset_name) (".tar.gz")
      || pyEndsWith (pyLower asset_name) (".tgz")
      || pyEndsWith (pyLower asset_name) (".zip")) = true) :
    (_extract_to_dir asset_name members out_dir = none ↔
      ∀ m ∈ members, memberSafe out_dir m = true)
    ∧ ∀ m ∈ members, isDescendant out_dir (resolveSegs out_dir m) = true →
        memberSafe out_dir m = true := by
  have hext : _extract_to_dir asset_name members out_dir = firstUnsafeMember out_dir members := by
    unfold _extract_to_dir
    cases h1 : (pyEndsWith (pyLower asset_name) (".tar.gz")
        || pyEndsWith (pyLower asset_name) (".tgz")) with
    | true => simp [h1]
    | false =>
      have hz : pyEndsWith (pyLower asset_name) (".zip") = true := by
        rw [h1, Bool.false_or] at harchive
        exact harchive
      simp [h1, hz]
  constructor
  · rw [hext]
    unfold firstUnsafeMember
    rw [List.find?_eq_none]
    constructor
    · intro h m hm
      have := h m hm
      simpa using this
    · intro h m hm
      simp [h m hm]
  · intro m _ hd
    exact descendant_safe out_dir m hd

theorem c2_guard_amended_witness :
    _extract_to_dir ("payload.tar.gz") [["sub", "bird"]] ["tmp", "s"] = none :=
  (c2_guard_amended ("payload.tar.gz") [["sub", "bird"]] ["tmp", "s"] (by decide)).1.mpr
    (by decide)

/-- A darwin-named release asset, used to exercise the windows target. -/
def c9Asset : Asset := ⟨some "bird_darwin_amd64.tar.gz", some 100, some "u9"⟩

/-- Claim C9: the windows OS token `win` is a substring of `darwin`, so a
release containing only `bird_darwin_amd64.tar.gz` satisfies the selector
for the windows/amd64 target, which returns that darwin asset. -/
theorem c9_win_token_matches_darwin :
    _token_match ("bird_darwin_amd64.tar.gz") (osTokens ("windows")) = true
    ∧ _pick_asset [c9Asset] ("windows") ("amd64") = some c9Asset := by
  constructor
  · decide
  · rw [pick_asset_eq_firstMin]
    decide

/-- Claim C3: for a non-empty match set the selector returns a match, and
any returned match has the lexicographically minimal `(formatRank, size)`
tuple; in particular when some match has format rank 0
(`.tar.gz`/`.tgz`), the returned match has rank 0, and among matches of
the same rank the returned one has the smallest declared size. -/
theorem c3_selector_ranking (assets : List Asset) (goos goarch : String) :
    (matchesOf assets goos goarch ≠ [] → ∃ x, _pick_asset assets goos goarch = some x)
    ∧ ∀ x, _pick_asset assets goos goarch = some x →
        x ∈ matchesOf assets goos goarch
        ∧ (∀ y ∈ matchesOf assets goos goarch, tupleLe (score x) (score y) = true)
        ∧ ((∃ y ∈ matchesOf assets goos goarch, (score y).1 = 0) → (score x).1 = 0)
        ∧ (∀ y ∈ matchesOf assets goos goarch, (score y).1 = (score x).1 →
            (score x).2 ≤ (score y).2) := by
  constructor
  · intro hne
    rw [pick_asset_eq_firstMin]
    cases hf : firstMin (matchesOf assets goos goarch) with
    | none => exact absurd ((firstMin_eq_none _).mp hf) hne
    | some x => exact ⟨x, rfl⟩
  · intro x hx
    rw [pick_asset_eq_firstMin] at hx
    obtain ⟨⟨hmem, hmin⟩, _⟩ := firstMin_spec _ x hx
    refine ⟨hmem, fun y hy => hmin y hy, ?_, ?_⟩
    · rintro ⟨y, hy, hy0⟩
      have h := hmin y hy
      simp only [scoreLe, tupleLe, decide_eq_true_eq] at h
      omega
    · intro y hy heq
      have h := hmin y hy
      simp only [scoreLe, tupleLe, decide_eq_true_eq] at h
      omega

/-- A small zip asset competing with a large tar.gz asset. -/
def c3Zip : Asset := ⟨some "bird_linux_amd64.zip", some 5, some "uz"⟩

/-- A large tar.gz asset competing with a small zip asset. -/
def c3Tar : Asset := ⟨some "bird_linux_amd64.tar.gz", some 500, some "ut"⟩

theorem c3_selector_ranking_witness :
    c3Tar ∈ matchesOf [c3Zip, c3Tar] ("linux") ("amd64")
    ∧ (∀ y ∈ matchesOf [c3Zip, c3Tar] ("linux") ("amd64"),
        tupleLe (score c3Tar) (score y) = true) := by
  have h := (c3_selector_ranking [c3Zip, c3Tar] ("linux") ("amd64")).2 c3Tar
    (by rw [pick_asset_eq_firstMin]; decide)
  exact ⟨h.1, h.2.1⟩

/-- Claim C7: any asset returned by the selector has a lowercased name
containing an OS-alias token and an architecture-alias token for the
requested target, and does not end in a checksum, signature, text or json
suffix. -/
theorem c7_selected_asset_token_filtered (assets : List Asset) (goos goarch : String)
    (x : Asset) (hx : _pick_asset assets goos goarch = some x) :
    _token_match (nameOr x) (osTokens goos) = true
    ∧ _token_match (nameOr x) (archTokens goarch) = true
    ∧ nonBinarySuffix (pyLower (nameOr x)) = false := by
  rw [pick_asset_eq_firstMin] at hx
  obtain ⟨⟨hmem, _⟩, _⟩ := firstMin_spec _ x hx
  unfold matchesOf at hmem
  have hp := (List.mem_filter.mp hmem).2
  simp only [Bool.and_eq_true, Bool.not_eq_true'] at hp
  exact ⟨hp.2.1, hp.2.2, hp.1⟩

theorem c7_selected_asset_token_filtered_witness :
    _token_match (nameOr demoLinuxAmd) (osTokens ("linux")) = true
    ∧ _token_match (nameOr demoLinuxAmd) (archTokens ("amd64")) = true
    ∧ nonBinarySuffix (pyLower (nameOr demoLinuxAmd)) = false :=
  c7_selected_asset_token_filtered demoAssets ("linux") ("amd64") demoLinuxAmd
    (by rw [pick_asset_eq_firstMin]; decide)

/-- Claim C10: the selector is a function of the asset list and target
(determinism is definitional), and it returns the earliest match with
minimal score: every match that precedes the returned one has a strictly
greater score tuple, so ties between equal tuples are resolved in favor
of the earlier asset. -/
theorem c10_stable_choice (assets : List Asset) (goos goarch : String) (x : Asset)
    (hx : _pick_asset assets goos goarch = some x) :
    ∃ l1 l2, matchesOf assets goos goarch = l1 ++ x :: l2
      ∧ (∀ y ∈ matchesOf assets goos goarch, tupleLe (score x) (score y) = true)
      ∧ (∀ y ∈ l1, tupleLe (score y) (score x) = false) := by
  rw [pick_asset_eq_firstMin] at hx
  obtain ⟨⟨_, hmin⟩, l1, l2, he, hfirst⟩ := firstMin_spec _ x hx
  exact ⟨l1, l2, he, fun y hy => hmin y hy, fun y hy => hfirst y hy⟩

/-- First of two equally scored matches. -/
def c10A : Asset := ⟨some "bird-linux-amd64.tar.gz", some 7, some "ua"⟩

/-- Second of two equally scored matches. -/
def c10B : Asset := ⟨some "bird_linux_amd64.tar.gz", some 7, some "ub"⟩

theorem c10_stable_choice_witness :
    ∃ l1 l2, matchesOf [c10A, c10B] ("linux") ("amd64") = l1 ++ c10A :: l2
      ∧ (∀ y ∈ matchesOf [c10A, c10B] ("linux") ("amd64"),
          tupleLe (score c10A) (score y) = true)
      ∧ (∀ y ∈ l1, tupleLe (score y) (score c10A) = false) :=
  c10_stable_choice [c10A, c10B] ("linux") ("amd64") c10A
    (by rw [pick_asset_eq_firstMin]; decide)

/-- Claim C5: the locator applies its strategies in order: (1) the first
file named exactly `bird.exe` (windows) or `bird` (non-windows); (2)
otherwise the unique file when the tree has exactly one regular file; (3)
otherwise, non-windows only, the first owner-executable file whose
lowercased name starts with `bird`; (4) otherwise nothing. -/
theorem c5_locator_strategy_order (files : List FileEntry) (want_windows : Bool) :
    (∀ p, files.find? (fun q =>
        (if want_windows then ["bird.exe"] else ["bird"]).contains q.name) = some p →
      _find_bird_binary files want_windows = some p)
    ∧ (files.find? (fun q =>
        (if want_windows then ["bird.exe"] else ["bird"]).contains q.name) = none →
      ∀ f, files = [f] → _find_bird_binary files want_windows = some f)
    ∧ (files.find? (fun q =>
        (if want_windows then ["bird.exe"] else ["bird"]).contains q.name) = none →
      files.length ≠ 1 → want_windows = false →
      _find_bird_binary files want_windows =
        files.find? (fun p => p.execOwner && pyStartsWith (pyLower p.name) ("bird")))
    ∧ (files.find? (fun q =>
        (if want_windows then ["bird.exe"] else ["bird"]).contains q.name) = none →
      files.length ≠ 1 → want_windows = true →
      _find_bird_binary files want_windows = none) := by
  refine ⟨?_, ?_, ?_, ?_⟩
  · intro p hp
    unfold _find_bird_binary
    dsimp only
    rw [hp]
  · intro hn f hf
    subst hf
    unfold _find_bird_binary
    dsimp only
    rw [hn]
    rfl
  · intro hn hlen hw
    subst hw
    unfold _find_bird_binary
    dsimp only
    rw [hn]
    have hb : (files.length == 1) = false := by
      cases hq : files.length == 1 with
      | false => rfl
      | true => exact absurd ((by simpa using hq) : files.length = 1) hlen
    rw [hb]
    rfl
  · intro hn hlen hw
    subst hw
    unfold _find_bird_binary
    dsimp only
    rw [hn]
    have hb : (files.length == 1) = false := by
      cases hq : files.length == 1 with
      | false => rfl
      | true => exact absurd ((by simpa using hq) : files.length = 1) hlen
    rw [hb]
    rfl

/-- A lone non-executable file with a name unrelated to `bird`. -/
def payloadFile : FileEntry := ⟨"payload.bin", false⟩

theorem c5_locator_strategy_order_witness :
    _find_bird_binary [payloadFile] false = some payloadFile :=
  (c5_locator_strategy_order [payloadFile] false).2.1 (by decide) payloadFile rfl

/-- Claim C6: a selector miss or a locator miss terminates the run with
exit code 1 exactly when the target is required; otherwise a skip
diagnostic is appended and the loop continues with the remaining targets
unchanged. -/
theorem c6_miss_fatal_iff_required :
    (∀ (extract : Asset → Except Unit (List FileEntry)) (assets : List Asset)
        (goos goarch : String) (required : Bool) (rest : List (String × String × Bool))
        (staged err : List String),
      _pick_asset assets goos goarch = none →
        (required = true →
          processTargets extract assets ((goos, goarch, required) :: rest) staged err =
            ⟨1, staged, err ++ [noMatchMsg goos goarch]⟩)
        ∧ (required = false →
          processTargets extract assets ((goos, goarch, required) :: rest) staged err =
            processTargets extract assets rest staged
              (err ++ [noMatchMsg goos goarch ++ " (skipping)"])))
    ∧ (∀ (extract : Asset → Except Unit (List FileEntry)) (assets : List Asset)
        (goos goarch : String) (required : Bool) (rest : List (String × String × Bool))
        (staged err : List String) (asset : Asset) (tree : List FileEntry),
      _pick_asset assets goos goarch = some asset →
      ((asset.browser_download_url).getD ("") == "" || nameOr asset == "") = false →
      extract asset = Except.ok tree →
      _find_bird_binary tree (goos == "windows") = none →
        (required = true →
          processTargets extract assets ((goos, goarch, required) :: rest) staged err =
            ⟨1, staged, err ++ [downloadingMsg (nameOr asset) goos goarch] ++
              [locateMsg (nameOr asset)]⟩)
        ∧ (required = false →
          processTargets extract assets ((goos, goarch, required) :: rest) staged err =
            processTargets extract assets rest staged
              (err ++ [downloadingMsg (nameOr asset) goos goarch] ++
                [locateMsg (nameOr asset) ++ " (skipping)"]))) := by
  constructor
  · intro extract assets goos goarch required rest staged err hp
    constructor <;> intro hreq <;> subst hreq <;>
      (simp only [processTargets]; rw [hp]; try rfl)
  · intro extract assets goos goarch required rest staged err asset tree hp hcond hext hfind
    constructor <;> intro hreq <;> subst hreq <;>
      (simp only [processTargets]; rw [hp]; dsimp only; rw [hcond, hext]; dsimp only;
        rw [hfind]; try rfl)

theorem c6_miss_fatal_iff_required_witness :
    processTargets demoExtract [] [(("linux"), ("amd64"), false)] [] [] =
      processTargets demoExtract [] [] [] [noMatchMsg ("linux") ("amd64") ++ " (skipping)"] :=
  (c6_miss_fatal_iff_required.1 demoExtract [] ("linux") ("amd64") false [] [] [] rfl).2 rfl

/-- Claim C8: an empty asset list makes the whole run return exit code 1
with a diagnostic line, independent of everything else; once a target's
selected asset lacks a download URL or a name, the run returns exit code
1 with a diagnostic line even when that target is not required. -/
theorem c8_always_fatal :
    (∀ (env : Option String) (extract : Asset → Except Unit (List FileEntry)),
      mainRun env [] extract =
        ⟨1, [], ["vendor_bird: no assets found in upstream release"]⟩)
    ∧ (∀ (extract : Asset → Except Unit (List FileEntry)) (assets : List Asset)
        (goos goarch : String) (required : Bool) (rest : List (String × String × Bool))
        (staged err : List String) (asset : Asset),
      _pick_asset assets goos goarch = some asset →
      ((asset.browser_download_url).getD ("") == "" || nameOr asset == "") = true →
      processTargets extract assets ((goos, goarch, required) :: rest) staged err =
        ⟨1, staged, err ++ [invalidMsg goos goarch]⟩) := by
  constructor
  · intro env extract; rfl
  · intro extract assets goos goarch required rest staged err asset hp hcond
    simp only [processTargets]
    rw [hp]
    dsimp only
    rw [hcond]
    try rfl

/-- A windows-named asset record with no download URL. -/
def c8BadAsset : Asset := ⟨some "bird_windows_amd64.zip", some 9, none⟩

theorem c8_always_fatal_witness :
    processTargets demoExtract [c8BadAsset] [(("windows"), ("amd64"), false)] [] [] =
      ⟨1, [], [invalidMsg ("windows") ("amd64")]⟩ :=
  c8_always_fatal.2 demoExtract [c8BadAsset] ("windows") ("amd64") false [] [] [] c8BadAsset
    (by rw [pick_asset_eq_firstMin]; decide) (by decide)

/-- Claim C4: when the run returns exit code 0, every required target has
exactly one staged file at its destination path; any non-zero outcome is
exit code 1 with at least one line on the error stream. -/
theorem c4_exit0_required_staged (env : Option String) (assets : List Asset)
    (extract : Asset → Except Unit (List FileEntry)) :
    ((mainRun env assets extract).exitCode = 0 →
      ∀ goos goarch required,
        (goos, goarch, required) ∈ targetsList (pyStrip (env.getD ("1")) == "1") →
        required = true →
        (mainRun env assets extract).staged.count (dstName goos goarch) = 1)
    ∧ ((mainRun env assets extract).exitCode ≠ 0 →
      (mainRun env assets extract).exitCode = 1
        ∧ (mainRun env assets extract).errLines ≠ []) := by
  cases hA : assets.isEmpty with
  | true =>
    have hrun : mainRun env assets extract =
        ⟨1, [], ["vendor_bird: no assets found in upstream release"]⟩ := by
      simp [mainRun, hA]
    rw [hrun]
    constructor
    · intro h0
      simp at h0
    · intro _
      exact ⟨rfl, by simp⟩
  | false =>
    have hrun : mainRun env assets extract = processTargets extract assets
        (targetsList (pyStrip (env.getD ("1")) == "1")) [] [] := by
      simp [mainRun, hA]
    rw [hrun]
    constructor
    · intro h0 goos goarch required hmem hreq
      subst hreq
      have hmem' := processTargets_staged_mem extract assets
        (targetsList (pyStrip (env.getD ("1")) == "1")) [] [] goos goarch hmem h0
      have hcount := processTargets_staged_count extract assets
        (targetsList (pyStrip (env.getD ("1")) == "1")) [] [] (dstName goos goarch)
      have htd := targets_dst_count (pyStrip (env.getD ("1")) == "1") goos goarch true hmem
      have hpos := List.count_pos_iff.mpr hmem'
      rw [htd, List.count_nil] at hcount
      omega
    · intro hne
      rcases processTargets_exit01 extract assets
          (targetsList (pyStrip (env.getD ("1")) == "1")) [] [] with h | h
      · exact absurd h hne
      · refine ⟨h, ?_⟩
        have hlen := processTargets_err_growth extract assets
          (targetsList (pyStrip (env.getD ("1")) == "1")) [] [] hne
        intro hnil
        rw [hnil] at hlen
        simp at hlen

theorem c4_exit0_required_staged_witness :
    (mainRun (some "0") demoAssets demoExtract).staged.count
      (dstName ("darwin") ("amd64")) = 1 :=
  (c4_exit0_required_staged (some "0") demoAssets demoExtract).1
    (by rw [mainRun_eq]; decide) ("darwin") ("amd64") true (by decide) rfl

/-- Claim C1 (code behaviour at the claim's scenario): with
`BIRDY_BUNDLE_WINDOWS` unset, the script computes `require_windows = true`
(the code defaults the variable to `"1"`, contradicting its own docstring
`default: "0" = best-effort`), so a release whose assets match all four
non-windows targets but contain no `win`-named asset makes the run return
exit code 1 — the claim expects exit code 0.  No `bird_windows_*` file is
staged. -/
theorem c1_unset_env_requires_windows :
    (pyStrip ((none : Option String).getD ("1")) == "1") = true
    ∧ (mainRun none demoAssets demoExtract).exitCode = 1
    ∧ (∀ s ∈ (mainRun none demoAssets demoExtract).staged,
        pyStartsWith s ("bundled/bird/bird_windows") = false) := by
  refine ⟨by decide, ?_, ?_⟩
  · rw [mainRun_eq]
    decide
  · rw [mainRun_eq]
    decide

end VendorBird
